import Mathlib

/-!
Verification of the `WaveReader` container facade of the bwavfile crate
(`src/wavereader.rs`).

The facade's methods all begin by materialising the ordered chunk list of the
underlying stream (`Parser::make(..).into_chunk_list()`); every subsequent
computation is a pure function of that list (and, for `fmt` parsing, of the
stream's bytes).  We therefore embed the state as the scanned chunk list
(plus the raw bytes where chunk payloads are consumed), and each method as a
pure function of it.
-/

/-- A four-byte chunk identifier (`FourCC` in `src/fourcc.rs`); equality is
exact byte match. -/
structure FourCC where
  b0 : Nat
  b1 : Nat
  b2 : Nat
  b3 : Nat
deriving DecidableEq, Repr

/-- The `fmt ` chunk signature. -/
def FMT__SIG : FourCC := ⟨0x66, 0x6D, 0x74, 0x20⟩

/-- The `data` chunk signature. -/
def DATA_SIG : FourCC := ⟨0x64, 0x61, 0x74, 0x61⟩

/-- The `bext` chunk signature. -/
def BEXT_SIG : FourCC := ⟨0x62, 0x65, 0x78, 0x74⟩

/-- The `JUNK` filler chunk signature. -/
def JUNK_SIG : FourCC := ⟨0x4A, 0x55, 0x4E, 0x4B⟩

/-- The `FLLR` filler chunk signature. -/
def FLLR_SIG : FourCC := ⟨0x46, 0x4C, 0x4C, 0x52⟩

/-- One scanned chunk extent: `start` is the absolute byte offset of the
chunk's payload, `length` the resolved payload length (both `u64` in the
source, embedded as `Nat`). -/
structure Chunk where
  signature : FourCC
  start : Nat
  length : Nat
deriving DecidableEq, Repr

/-- The error kinds of `src/errors.rs` that `wavereader.rs` can produce
(the IO-error variant is irrelevant to a pure chunk-list model). -/
inductive Error where
  | chunkMissing (signature : FourCC)
  | fmtChunkAfterData
  | notMinimalWaveFile
  | dataChunkNotAligned
  | insufficientDS64Reservation (expected actual : Nat)
  | dataChunkNotPreparedForAppend
  | malformedFmtChunk
deriving DecidableEq, Repr

deriving instance DecidableEq for Except

/-- `WaveReader::get_chunk_extent_at_index` (src/wavereader.rs:279-287):
filter the scanned chunk list by signature, take the `index`-th match, and
return its `(start, length)`; fail with `ChunkMissing` otherwise. -/
def getChunkExtentAtIndex (chunks : List Chunk) (fourcc : FourCC) (index : Nat) :
    Except Error (Nat × Nat) :=
  match (chunks.filter (fun item => item.signature == fourcc))[index]? with
  | some chunk => .ok (chunk.start, chunk.length)
  | none => .error (.chunkMissing fourcc)

/-- `WaveReader::validate_readable` (src/wavereader.rs:143-152): both a
`fmt ` and a `data` chunk must resolve at index 0, and the former must start
strictly before the latter. -/
def validateReadable (chunks : List Chunk) : Except Error Unit :=
  match getChunkExtentAtIndex chunks FMT__SIG 0 with
  | .error e => .error e
  | .ok (fmt_pos, _) =>
    match getChunkExtentAtIndex chunks DATA_SIG 0 with
    | .error e => .error e
    | .ok (data_pos, _) =>
      if fmt_pos < data_pos then .ok () else .error .fmtChunkAfterData

/-- `WaveReader::validate_minimal` (src/wavereader.rs:181-192): readable and
the signature sequence is exactly `[fmt , data]`. -/
def validateMinimal (chunks : List Chunk) : Except Error Unit :=
  match validateReadable chunks with
  | .error e => .error e
  | .ok () =>
    if chunks.map (fun c => c.signature) = [FMT__SIG, DATA_SIG] then .ok ()
    else .error .notMinimalWaveFile

/-- `WaveReader::validate_data_chunk_alignment` (src/wavereader.rs:227-235):
readable and the `data` payload starts at absolute offset 0x4000. -/
def validateDataChunkAlignment (chunks : List Chunk) : Except Error Unit :=
  match validateReadable chunks with
  | .error e => .error e
  | .ok () =>
    match getChunkExtentAtIndex chunks DATA_SIG 0 with
    | .error e => .error e
    | .ok (start, _) =>
      if start = 0x4000 then .ok () else .error .dataChunkNotAligned

/-- Whether a chunk bears one of the two filler signatures accepted by
`validate_prepared_for_append`. -/
def isFiller (c : Chunk) : Bool :=
  c.signature == JUNK_SIG || c.signature == FLLR_SIG

/-- The reservation fold of `validate_prepared_for_append`
(src/wavereader.rs:255-257): the first filler contributes its payload length,
every later one its payload length plus the 8 header bytes that would be
reclaimed by coalescing. -/
def fillerReservation (fillers : List Chunk) : Nat :=
  fillers.enum.foldl
    (fun accum p => if p.1 == 0 then accum + p.2.length else accum + p.2.length + 8) 0

/-- `WaveReader::validate_prepared_for_append` (src/wavereader.rs:246-269):
readable, then the leading run of `JUNK`/`FLLR` chunks must reserve at least
92 bytes, then the first `data` chunk must be the last chunk of the file. -/
def validatePreparedForAppend (chunks : List Chunk) : Except Error Unit :=
  match validateReadable chunks with
  | .error e => .error e
  | .ok () =>
    let ds64_space_required := 92
    let filler := fillerReservation (chunks.takeWhile isFiller)
    if filler < ds64_space_required then
      .error (.insufficientDS64Reservation ds64_space_required filler)
    else
      match chunks.findIdx? (fun c => c.signature == DATA_SIG) with
      | some p => if p = chunks.length - 1 then .ok () else .error .dataChunkNotPreparedForAppend
      | none => .error .dataChunkNotPreparedForAppend

/-- The sample-format descriptor `WaveFmt` (src/fmt.rs, not in scope here);
fields per the spec's data model and `fmt ` chunk layout.  `u16`/`u32` fields
are embedded as `Nat`. -/
structure WaveFmt where
  tag : Nat
  channel_count : Nat
  sample_rate : Nat
  byte_rate : Nat
  block_alignment : Nat
  bits_per_sample : Nat
  is_float : Bool
deriving DecidableEq, Repr

/-- Modelled from the spec: `read_wave_fmt` (src/chunks.rs, not in scope)
decodes the `fmt ` chunk's fixed-layout body — format tag (u16 LE at 0),
channel count (u16 at 2), sample rate (u32 at 4), byte rate (u32 at 8),
block alignment (u16 at 12), bits per sample (u16 at 14) — and fails when the
chunk is shorter than the minimal 16-byte PCM layout.  `is_float` is derived
from the IEEE-float format tag (3). -/
def readWaveFmt (bytes : List Nat) : Except Error WaveFmt :=
  if bytes.length < 16 then .error .malformedFmtChunk
  else
    let u16at := fun o => bytes.getD o 0 + 256 * bytes.getD (o + 1) 0
    let u32at := fun o =>
      bytes.getD o 0 + 256 * bytes.getD (o + 1) 0 +
        65536 * bytes.getD (o + 2) 0 + 16777216 * bytes.getD (o + 3) 0
    let tag := u16at 0
    .ok
      { tag := tag
        channel_count := u16at 2
        sample_rate := u32at 4
        byte_rate := u32at 8
        block_alignment := u16at 12
        bits_per_sample := u16at 14
        is_float := tag == 3 }

/-- Modelled from the spec: the bounded chunk reader (`RawChunkReader`,
src/raw_chunk_reader.rs, not in scope) exposes exactly the byte window
`[start, start+length)` of the underlying stream, with short reads at the
window's end. -/
def chunkWindow (bytes : List Nat) (start length : Nat) : List Nat :=
  (bytes.drop start).take length

/-- The state a `WaveReader` works over: the stream's raw bytes together with
the chunk list the scanner resolves from them.  Modelled from the spec: the
scanner (`Parser::into_chunk_list`, src/parser.rs, not in scope) is taken as
given by its output, the ordered extent list. -/
structure WaveStream where
  bytes : List Nat
  chunks : List Chunk
deriving DecidableEq, Repr

/-- `WaveReader::format` (src/wavereader.rs:124-126): a bounded reader over
the first `fmt ` chunk, decoded by `read_wave_fmt`. -/
def format (s : WaveStream) : Except Error WaveFmt :=
  match getChunkExtentAtIndex s.chunks FMT__SIG 0 with
  | .error e => .error e
  | .ok (start, length) => readWaveFmt (chunkWindow s.bytes start length)

/-- Outcome of `frame_length`, with Rust's panic on unsigned division by zero
made explicit as a third constructor. -/
inductive FrameLengthResult where
  | ok (frames : Nat)
  | err (e : Error)
  | divByZero
deriving DecidableEq, Repr

/-- `WaveReader::frame_length` (src/wavereader.rs:115-119): the `data`
extent's length divided by the descriptor's `block_alignment`.  The source
divides with `/` on `u64`, which panics when `block_alignment` is 0; that
case is embedded as `.divByZero`. -/
def frameLength (s : WaveStream) : FrameLengthResult :=
  match getChunkExtentAtIndex s.chunks DATA_SIG 0 with
  | .error e => .err e
  | .ok (_, data_length) =>
    match format s with
    | .error e => .err e
    | .ok fmt =>
      if fmt.block_alignment = 0 then .divByZero
      else .ok (data_length / fmt.block_alignment)

/-- The container facade (src/wavereader.rs:38-41): wraps the stream. -/
structure WaveReader where
  inner : WaveStream
deriving DecidableEq, Repr

/-- `WaveReader::new` (src/wavereader.rs:90-94): wrap the stream, then
validate readability, failing immediately with that error. -/
def WaveReader.new (inner : WaveStream) : Except Error WaveReader :=
  let retval : WaveReader := ⟨inner⟩
  match validateReadable retval.inner.chunks with
  | .ok () => .ok retval
  | .error e => .error e

/-- The first chunk of a given signature, in on-disk order. -/
def firstChunk (chunks : List Chunk) (sig : FourCC) : Option Chunk :=
  chunks.find? (fun c => c.signature == sig)

/-- The `data`-is-the-final-chunk condition, stated structurally: the list
ends in a `data` chunk and no earlier chunk is a `data` chunk (the source
compares the index of the first `data` chunk with the last index). -/
def DataIsFinalChunk (chunks : List Chunk) : Prop :=
  ∃ front c, chunks = front ++ [c] ∧ c.signature = DATA_SIG ∧
    ∀ x ∈ front, x.signature ≠ DATA_SIG

/-- A concrete readable `fmt ` chunk fixture. -/
def fmtChunk : Chunk := ⟨FMT__SIG, 20, 16⟩

/-- A `data` companion to `fmtChunk`. -/
def dataChunk : Chunk := ⟨DATA_SIG, 44, 8⟩

/-- A concrete 16-byte `fmt ` payload: tag 1 (PCM), 2 channels, 44100 Hz,
byte rate 176400, block alignment 4, 16 bits per sample. -/
def fmtPayload : List Nat :=
  [1, 0, 2, 0, 68, 172, 0, 0, 16, 177, 2, 0, 4, 0, 16, 0]

/-- A concrete stream whose `fmt ` payload sits at offset 20 and whose `data`
chunk holds 8 bytes. -/
def sampleStream : WaveStream :=
  { bytes := List.replicate 20 0 ++ fmtPayload ++ List.replicate 8 0
    chunks := [fmtChunk, dataChunk] }

/-- Like `fmtPayload` but with block alignment 0 (a degenerate descriptor the
decoder does not reject). -/
def zeroAlignPayload : List Nat :=
  [1, 0, 2, 0, 68, 172, 0, 0, 16, 177, 2, 0, 0, 0, 16, 0]

/-- A stream whose `fmt ` chunk declares block alignment 0. -/
def zeroAlignStream : WaveStream :=
  { bytes := List.replicate 20 0 ++ zeroAlignPayload ++ List.replicate 8 0
    chunks := [fmtChunk, dataChunk] }

section Helpers

variable {α : Type _}

theorem filter_getElem?_zero (p : α → Bool) (l : List α) :
    (l.filter p)[0]? = l.find? p := by
  induction l with
  | nil => simp
  | cons a t ih =>
    cases h : p a with
    | true => simp [List.filter_cons_of_pos h, List.find?_cons_of_pos _ h]
    | false =>
      rw [List.filter_cons_of_neg (by simp [h]), List.find?_cons_of_neg _ (by simp [h]), ih]

theorem filter_getElem?_some_iff (p : α → Bool) (l : List α) (i : Nat) (c : α) :
    (l.filter p)[i]? = some c ↔
      ∃ j, l[j]? = some c ∧ p c = true ∧ (l.take j).countP p = i := by
  induction l generalizing i with
  | nil => simp
  | cons a t ih =>
    cases h : p a with
    | true =>
      rw [List.filter_cons_of_pos h]
      cases i with
      | zero =>
        rw [List.getElem?_cons_zero, Option.some_inj]
        constructor
        · rintro rfl
          exact ⟨0, by simp, h, by simp⟩
        · rintro ⟨j, hj, hpc, hcount⟩
          cases j with
          | zero =>
            rw [List.getElem?_cons_zero, Option.some_inj] at hj
            exact hj
          | succ k =>
            rw [List.take_succ_cons, List.countP_cons] at hcount
            simp [h] at hcount
      | succ i' =>
        rw [List.getElem?_cons_succ, ih]
        constructor
        · rintro ⟨j, hj, hpc, hcount⟩
          refine ⟨j + 1, by simpa using hj, hpc, ?_⟩
          rw [List.take_succ_cons, List.countP_cons]
          simp [h, hcount]
        · rintro ⟨j, hj, hpc, hcount⟩
          cases j with
          | zero => simp at hcount
          | succ k =>
            rw [List.take_succ_cons, List.countP_cons] at hcount
            simp [h] at hcount
            exact ⟨k, by simpa using hj, hpc, hcount⟩
    | false =>
      rw [List.filter_cons_of_neg (by simp [h]), ih]
      constructor
      · rintro ⟨j, hj, hpc, hcount⟩
        refine ⟨j + 1, by simpa using hj, hpc, ?_⟩
        rw [List.take_succ_cons, List.countP_cons]
        simp [h, hcount]
      · rintro ⟨j, hj, hpc, hcount⟩
        cases j with
        | zero =>
          rw [List.getElem?_cons_zero, Option.some_inj] at hj
          subst hj
          rw [h] at hpc
          exact absurd hpc (by simp)
        | succ k =>
          rw [List.take_succ_cons, List.countP_cons] at hcount
          simp [h] at hcount
          exact ⟨k, by simpa using hj, hpc, hcount⟩

theorem filter_getElem?_none_iff (p : α → Bool) (l : List α) (i : Nat) :
    (l.filter p)[i]? = none ↔ l.countP p ≤ i := by
  rw [List.getElem?_eq_none_iff, List.countP_eq_length_filter]

theorem findIdx?_eq_last_iff (p : α → Bool) (l : List α) :
    l.findIdx? p = some (l.length - 1) ↔
      ∃ front c, l = front ++ [c] ∧ p c = true ∧ ∀ x ∈ front, p x = false := by
  induction l with
  | nil =>
    simp
  | cons a t ih =>
    rw [List.findIdx?_cons]
    by_cases h : p a = true
    · rw [if_pos h]
      constructor
      · intro hsome
        rw [Option.some_inj] at hsome
        have ht : t = [] := by
          have : t.length = 0 := by
            simp only [List.length_cons] at hsome
            omega
          exact List.eq_nil_of_length_eq_zero this
        subst ht
        exact ⟨[], a, rfl, h, by simp⟩
      · rintro ⟨front, c, heq, hpc, hfront⟩
        cases front with
        | nil =>
          simp only [List.nil_append, List.cons.injEq] at heq
          obtain ⟨rfl, rfl⟩ := heq
          simp
        | cons f fr =>
          simp only [List.cons_append, List.cons.injEq] at heq
          obtain ⟨rfl, _⟩ := heq
          have hfa := hfront a (by simp)
          rw [h] at hfa
          exact absurd hfa (by simp)
    · rw [if_neg h]
      have hfalse : p a = false := by simpa using h
      rw [List.findIdx?_start_succ]
      constructor
      · intro hsome
        rw [Option.map_eq_some'] at hsome
        obtain ⟨m, hm, hm1⟩ := hsome
        cases t with
        | nil => simp at hm
        | cons b tb =>
          have hmlen : m = (b :: tb).length - 1 := by
            simp only [List.length_cons] at hm1 ⊢
            omega
          subst hmlen
          obtain ⟨front, c, heq, hpc, hfront⟩ := ih.mp hm
          refine ⟨a :: front, c, by rw [heq, List.cons_append], hpc, ?_⟩
          intro x hx
          rcases List.mem_cons.mp hx with hxa | hxf
          · subst hxa; exact hfalse
          · exact hfront x hxf
      · rintro ⟨front, c, heq, hpc, hfront⟩
        cases front with
        | nil =>
          simp only [List.nil_append, List.cons.injEq] at heq
          obtain ⟨rfl, rfl⟩ := heq
          rw [hfalse] at hpc
          exact absurd hpc (by simp)
        | cons f fr =>
          simp only [List.cons_append, List.cons.injEq] at heq
          obtain ⟨rfl, rfl⟩ := heq
          have hrec : (fr ++ [c]).findIdx? p = some ((fr ++ [c]).length - 1) :=
            ih.mpr ⟨fr, c, rfl, hpc, fun x hx => hfront x (by simp [hx])⟩
          rw [Option.map_eq_some']
          refine ⟨(fr ++ [c]).length - 1, hrec, ?_⟩
          simp only [List.length_cons, List.length_append, List.length_cons,
            List.length_nil]
          omega

theorem enumFrom_reservation_foldl (l : List Chunk) (n a : Nat) :
    (l.enumFrom (n + 1)).foldl
        (fun accum p => if p.1 == 0 then accum + p.2.length else accum + p.2.length + 8) a
      = a + (l.map (fun c => c.length + 8)).sum := by
  induction l generalizing n a with
  | nil => simp
  | cons c t ih =>
    rw [List.enumFrom_cons, List.foldl_cons]
    rw [if_neg (by simp)]
    rw [ih (n + 1) (a + c.length + 8)]
    rw [List.map_cons, List.sum_cons]
    omega

theorem fillerReservation_nil : fillerReservation [] = 0 := rfl

theorem fillerReservation_cons (c : Chunk) (t : List Chunk) :
    fillerReservation (c :: t) = c.length + (t.map (fun x => x.length + 8)).sum := by
  unfold fillerReservation
  rw [List.enum_cons, List.foldl_cons]
  rw [if_pos (by simp)]
  rw [enumFrom_reservation_foldl t 0 (0 + c.length)]
  omega

theorem getChunkExtentAtIndex_zero_eq (chunks : List Chunk) (sig : FourCC) :
    getChunkExtentAtIndex chunks sig 0 =
      match firstChunk chunks sig with
      | some c => .ok (c.start, c.length)
      | none => .error (.chunkMissing sig) := by
  unfold getChunkExtentAtIndex firstChunk
  rw [filter_getElem?_zero]

theorem firstChunk_eq_none_iff (chunks : List Chunk) (sig : FourCC) :
    firstChunk chunks sig = none ↔ ∀ c ∈ chunks, c.signature ≠ sig := by
  unfold firstChunk
  rw [List.find?_eq_none]
  simp

theorem firstChunk_exists_iff (chunks : List Chunk) (sig : FourCC) :
    (∃ c, firstChunk chunks sig = some c) ↔ ∃ c ∈ chunks, c.signature = sig := by
  unfold firstChunk
  rw [← Option.isSome_iff_exists, List.find?_isSome]
  simp

theorem validateReadable_eq (chunks : List Chunk) :
    validateReadable chunks =
      match firstChunk chunks FMT__SIG with
      | none => .error (.chunkMissing FMT__SIG)
      | some cf =>
        match firstChunk chunks DATA_SIG with
        | none => .error (.chunkMissing DATA_SIG)
        | some cd =>
          if cf.start < cd.start then .ok () else .error .fmtChunkAfterData := by
  unfold validateReadable
  rw [getChunkExtentAtIndex_zero_eq, getChunkExtentAtIndex_zero_eq]
  rcases hf : firstChunk chunks FMT__SIG with _ | cf <;>
    rcases hd : firstChunk chunks DATA_SIG with _ | cd <;>
      simp

theorem validateReadable_ok_iff (chunks : List Chunk) :
    validateReadable chunks = .ok () ↔
      ((∃ c ∈ chunks, c.signature = FMT__SIG) ∧ (∃ c ∈ chunks, c.signature = DATA_SIG) ∧
        ∀ cf cd, firstChunk chunks FMT__SIG = some cf →
          firstChunk chunks DATA_SIG = some cd → cf.start < cd.start) := by
  rw [validateReadable_eq]
  rcases hf : firstChunk chunks FMT__SIG with _ | cf
  · constructor
    · intro h
      exact absurd h (by simp)
    · rintro ⟨hfmt, -, -⟩
      obtain ⟨c, hc⟩ := (firstChunk_exists_iff chunks FMT__SIG).mpr hfmt
      rw [hf] at hc
      exact absurd hc (by simp)
  · rcases hd : firstChunk chunks DATA_SIG with _ | cd
    · constructor
      · intro h
        exact absurd h (by simp)
      · rintro ⟨-, hdata, -⟩
        obtain ⟨c, hc⟩ := (firstChunk_exists_iff chunks DATA_SIG).mpr hdata
        rw [hd] at hc
        exact absurd hc (by simp)
    · by_cases hlt : cf.start < cd.start
      · simp only [if_pos hlt]
        constructor
        · intro _
          refine ⟨(firstChunk_exists_iff chunks FMT__SIG).mp ⟨cf, hf⟩,
            (firstChunk_exists_iff chunks DATA_SIG).mp ⟨cd, hd⟩, ?_⟩
          intro cf' cd' hcf' hcd'
          rw [Option.some_inj] at hcf' hcd'
          rw [← hcf', ← hcd']
          exact hlt
        · intro _
          trivial
      · simp only [if_neg hlt]
        constructor
        · intro h
          exact absurd h (by simp)
        · rintro ⟨-, -, hord⟩
          exact absurd (hord cf cd rfl rfl) hlt

theorem validateReadable_missing_fmt (chunks : List Chunk)
    (h : ∀ c ∈ chunks, c.signature ≠ FMT__SIG) :
    validateReadable chunks = .error (.chunkMissing FMT__SIG) := by
  rw [validateReadable_eq, (firstChunk_eq_none_iff chunks FMT__SIG).mpr h]

theorem validateReadable_missing_data (chunks : List Chunk)
    (hf : ∃ c ∈ chunks, c.signature = FMT__SIG)
    (h : ∀ c ∈ chunks, c.signature ≠ DATA_SIG) :
    validateReadable chunks = .error (.chunkMissing DATA_SIG) := by
  rw [validateReadable_eq]
  obtain ⟨cf, hcf⟩ := (firstChunk_exists_iff chunks FMT__SIG).mpr hf
  rw [hcf, (firstChunk_eq_none_iff chunks DATA_SIG).mpr h]

theorem validateReadable_out_of_order (chunks : List Chunk) (cf cd : Chunk)
    (hcf : firstChunk chunks FMT__SIG = some cf)
    (hcd : firstChunk chunks DATA_SIG = some cd)
    (hge : ¬ cf.start < cd.start) :
    validateReadable chunks = .error .fmtChunkAfterData := by
  rw [validateReadable_eq, hcf, hcd]
  simp only [if_neg hge]

theorem dataIsFinalChunk_iff (chunks : List Chunk) :
    chunks.findIdx? (fun c => c.signature == DATA_SIG) = some (chunks.length - 1) ↔
      DataIsFinalChunk chunks := by
  rw [findIdx?_eq_last_iff]
  unfold DataIsFinalChunk
  constructor
  · rintro ⟨front, c, heq, hpc, hfront⟩
    refine ⟨front, c, heq, by simpa using hpc, fun x hx => by simpa using hfront x hx⟩
  · rintro ⟨front, c, heq, hpc, hfront⟩
    refine ⟨front, c, heq, by simpa using hpc, fun x hx => by simpa using hfront x hx⟩

theorem firstChunk_append_of_some (chunks rest : List Chunk) (sig : FourCC) (c : Chunk)
    (h : firstChunk chunks sig = some c) :
    firstChunk (chunks ++ rest) sig = some c := by
  unfold firstChunk at h ⊢
  rw [List.find?_append, h]
  rfl

theorem validateReadable_append (chunks : List Chunk) (c : Chunk)
    (hr : validateReadable chunks = .ok ()) :
    validateReadable (chunks ++ [c]) = .ok () := by
  rw [validateReadable_ok_iff] at hr ⊢
  obtain ⟨hfmt, hdata, hord⟩ := hr
  obtain ⟨cf, hcf⟩ := (firstChunk_exists_iff chunks FMT__SIG).mpr hfmt
  obtain ⟨cd, hcd⟩ := (firstChunk_exists_iff chunks DATA_SIG).mpr hdata
  refine ⟨?_, ?_, ?_⟩
  · obtain ⟨x, hx, hsx⟩ := hfmt
    exact ⟨x, List.mem_append_left _ hx, hsx⟩
  · obtain ⟨x, hx, hsx⟩ := hdata
    exact ⟨x, List.mem_append_left _ hx, hsx⟩
  · intro cf' cd' hcf' hcd'
    rw [firstChunk_append_of_some chunks [c] FMT__SIG cf hcf, Option.some_inj] at hcf'
    rw [firstChunk_append_of_some chunks [c] DATA_SIG cd hcd, Option.some_inj] at hcd'
    rw [← hcf', ← hcd']
    exact hord cf cd hcf hcd

theorem validateMinimal_ok_iff (chunks : List Chunk) :
    validateMinimal chunks = .ok () ↔
      validateReadable chunks = .ok () ∧
        chunks.map (fun c => c.signature) = [FMT__SIG, DATA_SIG] := by
  unfold validateMinimal
  rcases hr : validateReadable chunks with e | ⟨⟩
  · simp
  · by_cases hm : chunks.map (fun c => c.signature) = [FMT__SIG, DATA_SIG] <;>
      simp [hm]

theorem validateMinimal_not_minimal (chunks : List Chunk)
    (hr : validateReadable chunks = .ok ())
    (hm : chunks.map (fun c => c.signature) ≠ [FMT__SIG, DATA_SIG]) :
    validateMinimal chunks = .error .notMinimalWaveFile := by
  unfold validateMinimal
  rw [hr]
  simp [hm]

theorem validateDataChunkAlignment_eq (chunks : List Chunk) :
    validateDataChunkAlignment chunks =
      match validateReadable chunks with
      | .error e => .error e
      | .ok () =>
        match firstChunk chunks DATA_SIG with
        | none => .error (.chunkMissing DATA_SIG)
        | some cd => if cd.start = 0x4000 then .ok () else .error .dataChunkNotAligned := by
  unfold validateDataChunkAlignment
  rw [getChunkExtentAtIndex_zero_eq]
  rcases hr : validateReadable chunks with e | ⟨⟩ <;>
    rcases hd : firstChunk chunks DATA_SIG with _ | cd <;> simp

theorem validateDataChunkAlignment_err (chunks : List Chunk) (e : Error)
    (hr : validateReadable chunks = .error e) :
    validateDataChunkAlignment chunks = .error e := by
  unfold validateDataChunkAlignment
  rw [hr]

theorem validateDataChunkAlignment_ok_missing (chunks : List Chunk)
    (hr : validateReadable chunks = .ok ()) (hd : firstChunk chunks DATA_SIG = none) :
    validateDataChunkAlignment chunks = .error (.chunkMissing DATA_SIG) := by
  unfold validateDataChunkAlignment
  rw [hr, getChunkExtentAtIndex_zero_eq, hd]

theorem validateDataChunkAlignment_ok_some (chunks : List Chunk) (cd : Chunk)
    (hr : validateReadable chunks = .ok ()) (hd : firstChunk chunks DATA_SIG = some cd) :
    validateDataChunkAlignment chunks =
      if cd.start = 0x4000 then .ok () else .error .dataChunkNotAligned := by
  unfold validateDataChunkAlignment
  rw [hr, getChunkExtentAtIndex_zero_eq, hd]

theorem waveReader_new_err (s : WaveStream) (e : Error)
    (hr : validateReadable s.chunks = .error e) : WaveReader.new s = .error e := by
  simp only [WaveReader.new, hr]

theorem waveReader_new_ok (s : WaveStream) (hr : validateReadable s.chunks = .ok ()) :
    WaveReader.new s = .ok ⟨s⟩ := by
  simp only [WaveReader.new, hr]

theorem format_eq (s : WaveStream) :
    format s =
      match firstChunk s.chunks FMT__SIG with
      | none => .error (.chunkMissing FMT__SIG)
      | some cf => readWaveFmt (chunkWindow s.bytes cf.start cf.length) := by
  unfold format
  rw [getChunkExtentAtIndex_zero_eq]
  rcases hf : firstChunk s.chunks FMT__SIG with _ | cf <;> simp

theorem validatePreparedForAppend_cases (chunks : List Chunk) :
    (∀ e, validateReadable chunks = .error e →
      validatePreparedForAppend chunks = .error e) ∧
    (validateReadable chunks = .ok () →
      fillerReservation (chunks.takeWhile isFiller) < 92 →
      validatePreparedForAppend chunks =
        .error (.insufficientDS64Reservation 92
          (fillerReservation (chunks.takeWhile isFiller)))) ∧
    (validateReadable chunks = .ok () →
      92 ≤ fillerReservation (chunks.takeWhile isFiller) →
      DataIsFinalChunk chunks → validatePreparedForAppend chunks = .ok ()) ∧
    (validateReadable chunks = .ok () →
      92 ≤ fillerReservation (chunks.takeWhile isFiller) →
      ¬ DataIsFinalChunk chunks →
      validatePreparedForAppend chunks = .error .dataChunkNotPreparedForAppend) := by
  refine ⟨?_, ?_, ?_, ?_⟩
  · intro e he
    unfold validatePreparedForAppend
    rw [he]
  · intro hr hlt
    unfold validatePreparedForAppend
    rw [hr]
    simp only
    rw [if_pos hlt]
  · intro hr hge hfinal
    unfold validatePreparedForAppend
    rw [hr]
    simp only
    rw [if_neg (by omega)]
    rw [(dataIsFinalChunk_iff chunks).mpr hfinal]
    simp
  · intro hr hge hfinal
    unfold validatePreparedForAppend
    rw [hr]
    simp only
    rw [if_neg (by omega)]
    rcases hidx : chunks.findIdx? (fun c => c.signature == DATA_SIG) with _ | p
    · rw [hidx]
    · have hne : p ≠ chunks.length - 1 := by
        intro hp
        exact hfinal ((dataIsFinalChunk_iff chunks).mp (hp ▸ hidx))
      rw [hidx]
      simp only
      rw [if_neg hne]

theorem validatePreparedForAppend_ok_iff (chunks : List Chunk) :
    validatePreparedForAppend chunks = .ok () ↔
      validateReadable chunks = .ok () ∧
        92 ≤ fillerReservation (chunks.takeWhile isFiller) ∧
        DataIsFinalChunk chunks := by
  obtain ⟨herr, hins, hok, hlast⟩ := validatePreparedForAppend_cases chunks
  constructor
  · intro h
    rcases hr : validateReadable chunks with e | ⟨⟩
    · rw [herr e hr] at h
      exact absurd h (by simp)
    · rcases Nat.lt_or_ge (fillerReservation (chunks.takeWhile isFiller)) 92 with hlt | hge
      · rw [hins hr hlt] at h
        exact absurd h (by simp)
      · by_cases hfinal : DataIsFinalChunk chunks
        · exact ⟨rfl, hge, hfinal⟩
        · rw [hlast hr hge hfinal] at h
          exact absurd h (by simp)
  · rintro ⟨hr, hge, hfinal⟩
    exact hok hr hge hfinal

end Helpers



/-- C3: `validate_readable` returns Ok iff a `fmt ` chunk exists, a `data`
chunk exists, and the (first) `fmt ` chunk's start offset strictly precedes
the (first) `data` chunk's start offset; a missing required chunk yields
`ChunkMissing` naming the absent signature, and an ordering violation yields
`FmtChunkAfterData`. -/
theorem c3_validate_readable_characterization (chunks : List Chunk) :
    (validateReadable chunks = .ok () ↔
      ((∃ c ∈ chunks, c.signature = FMT__SIG) ∧ (∃ c ∈ chunks, c.signature = DATA_SIG) ∧
        ∀ cf cd, firstChunk chunks FMT__SIG = some cf →
          firstChunk chunks DATA_SIG = some cd → cf.start < cd.start)) ∧
    ((∀ c ∈ chunks, c.signature ≠ FMT__SIG) →
      validateReadable chunks = .error (.chunkMissing FMT__SIG)) ∧
    ((∃ c ∈ chunks, c.signature = FMT__SIG) → (∀ c ∈ chunks, c.signature ≠ DATA_SIG) →
      validateReadable chunks = .error (.chunkMissing DATA_SIG)) ∧
    (∀ cf cd, firstChunk chunks FMT__SIG = some cf → firstChunk chunks DATA_SIG = some cd →
      ¬ cf.start < cd.start → validateReadable chunks = .error .fmtChunkAfterData) :=
  ⟨validateReadable_ok_iff chunks, validateReadable_missing_fmt chunks,
    validateReadable_missing_data chunks, validateReadable_out_of_order chunks⟩

/-- C3 witness: a container with `data` before `fmt ` (both present) fails
with the ordering error. -/
theorem c3_witness :
    validateReadable [⟨DATA_SIG, 20, 8⟩, ⟨FMT__SIG, 44, 16⟩] = .error .fmtChunkAfterData :=
  (c3_validate_readable_characterization [⟨DATA_SIG, 20, 8⟩, ⟨FMT__SIG, 44, 16⟩]).2.2.2
    ⟨FMT__SIG, 44, 16⟩ ⟨DATA_SIG, 20, 8⟩ (by decide) (by decide) (by decide)

/-- C4: `validate_minimal` returns Ok iff `validate_readable` succeeds and
the complete ordered signature sequence is exactly `[fmt , data]`; a readable
container with any other signature sequence fails with `NotMinimalWaveFile`,
and in particular appending any extra chunk (for example a trailing `LIST`)
to a readable container fails `validate_minimal` with `NotMinimalWaveFile`
while `validate_readable` still succeeds. -/
theorem c4_validate_minimal_characterization (chunks : List Chunk) :
    (validateMinimal chunks = .ok () ↔
      validateReadable chunks = .ok () ∧
        chunks.map (fun c => c.signature) = [FMT__SIG, DATA_SIG]) ∧
    (validateReadable chunks = .ok () →
      chunks.map (fun c => c.signature) ≠ [FMT__SIG, DATA_SIG] →
      validateMinimal chunks = .error .notMinimalWaveFile) ∧
    (∀ c, validateReadable chunks = .ok () →
      validateReadable (chunks ++ [c]) = .ok () ∧
      validateMinimal (chunks ++ [c]) = .error .notMinimalWaveFile) := by
  refine ⟨validateMinimal_ok_iff chunks, validateMinimal_not_minimal chunks, ?_⟩
  intro c hr
  have happ := validateReadable_append chunks c hr
  refine ⟨happ, validateMinimal_not_minimal (chunks ++ [c]) happ ?_⟩
  intro hmap
  obtain ⟨hfmt, hdata, -⟩ := (validateReadable_ok_iff chunks).mp hr
  obtain ⟨cf, hcf, hsf⟩ := hfmt
  obtain ⟨cd, hcd, hsd⟩ := hdata
  have hlen : chunks.length = 1 := by
    have hl := congrArg List.length hmap
    simp only [List.length_map, List.length_append, List.length_cons, List.length_nil] at hl
    omega
  obtain ⟨x, hx⟩ := List.length_eq_one.mp
    (by rw [List.length_map]; exact hlen :
      (chunks.map (fun c => c.signature)).length = 1)
  have hmf : cf.signature ∈ chunks.map (fun c => c.signature) :=
    List.mem_map.mpr ⟨cf, hcf, rfl⟩
  have hmd : cd.signature ∈ chunks.map (fun c => c.signature) :=
    List.mem_map.mpr ⟨cd, hcd, rfl⟩
  rw [hx, List.mem_singleton] at hmf hmd
  rw [hsf] at hmf
  rw [hsd] at hmd
  rw [← hmd] at hmf
  exact absurd hmf (by decide)

/-- C4 witness: `[fmt , data]` passes minimal validation; with a trailing
`LIST` chunk it fails minimal validation with `NotMinimalWaveFile` while
still validating readable. -/
theorem c4_witness :
    validateMinimal [fmtChunk, dataChunk] = .ok () ∧
    validateReadable [fmtChunk, dataChunk, ⟨⟨0x4C, 0x49, 0x53, 0x54⟩, 60, 10⟩] = .ok () ∧
    validateMinimal [fmtChunk, dataChunk, ⟨⟨0x4C, 0x49, 0x53, 0x54⟩, 60, 10⟩]
      = .error .notMinimalWaveFile := by
  have h := (c4_validate_minimal_characterization [fmtChunk, dataChunk]).2.2
    ⟨⟨0x4C, 0x49, 0x53, 0x54⟩, 60, 10⟩ (by decide)
  exact ⟨by decide, h.1, h.2⟩

/-- C5: chunk-extent lookup returns the start and length of the `index`-th
chunk bearing the requested signature in on-disk order (index 0 = first
occurrence): it succeeds with `(start, length)` exactly when some position
`j` holds a chunk of that signature with exactly `index` earlier same-signature
chunks; with fewer than `index + 1` matching chunks it fails, and every
failure is `ChunkMissing` carrying exactly the requested signature. -/
theorem c5_get_chunk_extent_characterization (chunks : List Chunk) (sig : FourCC) (i : Nat) :
    (∀ s l, getChunkExtentAtIndex chunks sig i = .ok (s, l) ↔
      ∃ j c, chunks[j]? = some c ∧ c.signature = sig ∧
        (chunks.take j).countP (fun x => x.signature == sig) = i ∧
        s = c.start ∧ l = c.length) ∧
    (getChunkExtentAtIndex chunks sig i = .error (.chunkMissing sig) ↔
      chunks.countP (fun x => x.signature == sig) ≤ i) ∧
    (∀ e, getChunkExtentAtIndex chunks sig i = .error e → e = .chunkMissing sig) := by
  rcases h : (chunks.filter (fun item => item.signature == sig))[i]? with _ | c
  · have hred : getChunkExtentAtIndex chunks sig i = .error (.chunkMissing sig) := by
      unfold getChunkExtentAtIndex
      rw [h]
    refine ⟨?_, ?_, ?_⟩
    · intro s l
      rw [hred]
      constructor
      · intro hh
        exact absurd hh (by simp)
      · rintro ⟨j, c, hj, hsig, hcount, rfl, rfl⟩
        have hc : (chunks.filter (fun item => item.signature == sig))[i]? = some c :=
          (filter_getElem?_some_iff _ _ _ _).mpr ⟨j, hj, by simp [hsig], hcount⟩
        rw [h] at hc
        exact absurd hc (by simp)
    · rw [hred]
      constructor
      · intro _
        rw [List.countP_eq_length_filter, ← List.getElem?_eq_none_iff]
        exact h
      · intro _
        rfl
    · intro e he
      rw [hred, Except.error.injEq] at he
      exact he.symm
  · obtain ⟨j0, hj0, hpc0, hcount0⟩ := (filter_getElem?_some_iff _ _ _ _).mp h
    have hred : getChunkExtentAtIndex chunks sig i = .ok (c.start, c.length) := by
      unfold getChunkExtentAtIndex
      rw [h]
    refine ⟨?_, ?_, ?_⟩
    · intro s l
      rw [hred]
      constructor
      · intro hh
        rw [Except.ok.injEq, Prod.mk.injEq] at hh
        exact ⟨j0, c, hj0, by simpa using hpc0, hcount0, hh.1.symm, hh.2.symm⟩
      · rintro ⟨j, c', hj, hsig, hcount, rfl, rfl⟩
        have hc : (chunks.filter (fun item => item.signature == sig))[i]? = some c' :=
          (filter_getElem?_some_iff _ _ _ _).mpr ⟨j, hj, by simp [hsig], hcount⟩
        rw [h, Option.some_inj] at hc
        rw [hc]
    · rw [hred]
      constructor
      · intro hh
        exact absurd hh (by simp)
      · intro hle
        have hnone : (chunks.filter (fun item => item.signature == sig))[i]? = none := by
          rw [List.getElem?_eq_none_iff, ← List.countP_eq_length_filter]
          exact hle
        rw [h] at hnone
        exact absurd hnone (by simp)
    · intro e he
      rw [hred] at he
      exact absurd he (by simp)

/-- C5 witness: in a container with two `JUNK` chunks, lookup at index 1
returns the second one's extent, and lookup at index 2 fails with
`ChunkMissing JUNK`. -/
theorem c5_witness :
    getChunkExtentAtIndex
        [⟨JUNK_SIG, 20, 4⟩, ⟨FMT__SIG, 32, 16⟩, ⟨JUNK_SIG, 56, 6⟩, ⟨DATA_SIG, 70, 8⟩]
        JUNK_SIG 1 = .ok (56, 6) ∧
    getChunkExtentAtIndex
        [⟨JUNK_SIG, 20, 4⟩, ⟨FMT__SIG, 32, 16⟩, ⟨JUNK_SIG, 56, 6⟩, ⟨DATA_SIG, 70, 8⟩]
        JUNK_SIG 2 = .error (.chunkMissing JUNK_SIG) := by
  constructor
  · exact ((c5_get_chunk_extent_characterization
      [⟨JUNK_SIG, 20, 4⟩, ⟨FMT__SIG, 32, 16⟩, ⟨JUNK_SIG, 56, 6⟩, ⟨DATA_SIG, 70, 8⟩]
      JUNK_SIG 1).1 56 6).mpr ⟨2, ⟨JUNK_SIG, 56, 6⟩, by decide, by decide, by decide, rfl, rfl⟩
  · exact ((c5_get_chunk_extent_characterization
      [⟨JUNK_SIG, 20, 4⟩, ⟨FMT__SIG, 32, 16⟩, ⟨JUNK_SIG, 56, 6⟩, ⟨DATA_SIG, 70, 8⟩]
      JUNK_SIG 2).2.1).mpr (by decide)

/-- C6: `frame_length` returns the `data` chunk extent's length divided by
the parsed descriptor's `block_alignment` (flooring integer division, which
presupposes a nonzero divisor — the zero case is settled separately), and
propagates the failure whenever the `data` extent lookup or the `fmt `
descriptor parse fails. -/
theorem c6_frame_length_characterization (s : WaveStream) :
    (∀ e, getChunkExtentAtIndex s.chunks DATA_SIG 0 = .error e → frameLength s = .err e) ∧
    (∀ v e, getChunkExtentAtIndex s.chunks DATA_SIG 0 = .ok v → format s = .error e →
      frameLength s = .err e) ∧
    (∀ st len fmt, getChunkExtentAtIndex s.chunks DATA_SIG 0 = .ok (st, len) →
      format s = .ok fmt → fmt.block_alignment ≠ 0 →
      frameLength s = .ok (len / fmt.block_alignment)) := by
  refine ⟨?_, ?_, ?_⟩
  · intro e he
    simp only [frameLength, he]
  · rintro ⟨st, len⟩ e hd hf
    simp only [frameLength, hd, hf]
  · intro st len fmt hd hf hz
    simp only [frameLength, hd, hf]
    rw [if_neg hz]

/-- C6 witness: a 2-channel 16-bit stream with an 8-byte `data` payload has
`frame_length` 2. -/
theorem c6_witness : frameLength sampleStream = .ok 2 :=
  (c6_frame_length_characterization sampleStream).2.2 44 8
    { tag := 1, channel_count := 2, sample_rate := 44100, byte_rate := 176400,
      block_alignment := 4, bits_per_sample := 16, is_float := false }
    (by decide) (by decide) (by decide)

/-- C7: `validate_data_chunk_alignment` returns Ok iff `validate_readable`
succeeds and the first `data` chunk's payload starts at absolute offset
0x4000; a readable container whose `data` starts elsewhere fails with
`DataChunkNotAligned`, and an unreadable one propagates the readability
error. -/
theorem c7_alignment_characterization (chunks : List Chunk) :
    (validateDataChunkAlignment chunks = .ok () ↔
      validateReadable chunks = .ok () ∧
        ∃ cd, firstChunk chunks DATA_SIG = some cd ∧ cd.start = 0x4000) ∧
    (validateReadable chunks = .ok () →
      ∀ cd, firstChunk chunks DATA_SIG = some cd → cd.start ≠ 0x4000 →
        validateDataChunkAlignment chunks = .error .dataChunkNotAligned) ∧
    (∀ e, validateReadable chunks = .error e →
      validateDataChunkAlignment chunks = .error e) := by
  refine ⟨?_, ?_, ?_⟩
  · constructor
    · intro hh
      rcases hr : validateReadable chunks with e | u
      · rw [validateDataChunkAlignment_err chunks e hr] at hh
        exact absurd hh (by simp)
      · rcases hd : firstChunk chunks DATA_SIG with _ | cd
        · rw [validateDataChunkAlignment_ok_missing chunks hr hd] at hh
          exact absurd hh (by simp)
        · rw [validateDataChunkAlignment_ok_some chunks cd hr hd] at hh
          by_cases hal : cd.start = 0x4000
          · exact ⟨rfl, cd, rfl, hal⟩
          · rw [if_neg hal] at hh
            exact absurd hh (by simp)
    · rintro ⟨hr, cd, hcd, hal⟩
      rw [validateDataChunkAlignment_ok_some chunks cd hr hcd, if_pos hal]
  · intro hr cd hcd hne
    rw [validateDataChunkAlignment_ok_some chunks cd hr hcd, if_neg hne]
  · intro e he
    exact validateDataChunkAlignment_err chunks e he

/-- C7 witness: a readable container whose `data` payload starts at 44 (not
0x4000) fails alignment validation with `DataChunkNotAligned`. -/
theorem c7_witness :
    validateDataChunkAlignment [fmtChunk, dataChunk] = .error .dataChunkNotAligned :=
  (c7_alignment_characterization [fmtChunk, dataChunk]).2.1 (by decide) dataChunk
    (by decide) (by decide)

/-- C8: `WaveReader::new` runs the readability check at construction time
and fails with exactly the error `validate_readable` produces; on success
the constructed reader wraps exactly the provided stream. -/
theorem c8_new_contract (s : WaveStream) :
    (∀ e, WaveReader.new s = .error e ↔ validateReadable s.chunks = .error e) ∧
    (∀ r, WaveReader.new s = .ok r → r.inner = s) ∧
    (validateReadable s.chunks = .ok () → WaveReader.new s = .ok ⟨s⟩) := by
  refine ⟨?_, ?_, ?_⟩
  · intro e
    constructor
    · intro hh
      rcases hr : validateReadable s.chunks with e' | u
      · rw [waveReader_new_err s e' hr, Except.error.injEq] at hh
        rw [hh]
      · rw [waveReader_new_ok s hr] at hh
        exact absurd hh (by simp)
    · intro hh
      exact waveReader_new_err s e hh
  · intro r hrr
    rcases hr : validateReadable s.chunks with e' | u
    · rw [waveReader_new_err s e' hr] at hrr
      exact absurd hrr (by simp)
    · rw [waveReader_new_ok s hr, Except.ok.injEq] at hrr
      rw [← hrr]
  · intro hok
    exact waveReader_new_ok s hok

/-- C8 witness: constructing a reader over a readable stream succeeds and
wraps that stream. -/
theorem c8_witness : WaveReader.new sampleStream = .ok ⟨sampleStream⟩ :=
  (c8_new_contract sampleStream).2.2 (by decide)

/-- C9: `frame_length` divides by the descriptor's `block_alignment` without
guarding against zero: when the parsed descriptor has `block_alignment = 0`
(and the `data` extent resolves), the `u64` division panics — embedded as the
`divByZero` outcome — rather than returning a frame count or a structured
error. -/
theorem c9_unguarded_division (s : WaveStream) (st len : Nat) (fmt : WaveFmt)
    (hd : getChunkExtentAtIndex s.chunks DATA_SIG 0 = .ok (st, len))
    (hf : format s = .ok fmt) (hz : fmt.block_alignment = 0) :
    frameLength s = .divByZero ∧ (∀ n, frameLength s ≠ .ok n) ∧
      (∀ e, frameLength s ≠ .err e) := by
  have h : frameLength s = .divByZero := by
    simp only [frameLength, hd, hf]
    rw [if_pos hz]
  refine ⟨h, ?_, ?_⟩
  · intro n hn
    rw [h] at hn
    exact absurd hn (by simp)
  · intro e he
    rw [h] at he
    exact absurd he (by simp)

/-- C9 witness: on a stream whose `fmt ` chunk declares block alignment 0,
`frame_length` hits the unguarded division. -/
theorem c9_witness : frameLength zeroAlignStream = .divByZero :=
  (c9_unguarded_division zeroAlignStream 44 8
    { tag := 1, channel_count := 2, sample_rate := 44100, byte_rate := 176400,
      block_alignment := 0, bits_per_sample := 16, is_float := false }
    (by decide) (by decide) (by decide)).1

/-- C1 counterexample: a readable container `[fmt , JUNK(92), data]` whose
chunk immediately preceding `data` is a 92-byte `JUNK` filler, with `data`
last, is nevertheless rejected with `InsufficientDS64Reservation 92 0`: the
source only counts filler chunks at the very beginning of the chunk list,
not the ones immediately preceding `data`. -/
theorem c1_counterexample :
    validateReadable [⟨FMT__SIG, 12, 16⟩, ⟨JUNK_SIG, 36, 92⟩, ⟨DATA_SIG, 136, 4⟩] = .ok () ∧
    ([⟨FMT__SIG, 12, 16⟩, ⟨JUNK_SIG, 36, 92⟩, ⟨DATA_SIG, 136, 4⟩] : List Chunk)[1]?
      = some ⟨JUNK_SIG, 36, 92⟩ ∧
    92 ≤ (Chunk.mk JUNK_SIG 36 92).length ∧
    DataIsFinalChunk [⟨FMT__SIG, 12, 16⟩, ⟨JUNK_SIG, 36, 92⟩, ⟨DATA_SIG, 136, 4⟩] ∧
    validatePreparedForAppend [⟨FMT__SIG, 12, 16⟩, ⟨JUNK_SIG, 36, 92⟩, ⟨DATA_SIG, 136, 4⟩]
      = .error (.insufficientDS64Reservation 92 0) := by
  refine ⟨by decide, by decide, by decide, ?_, by decide⟩
  exact ⟨[⟨FMT__SIG, 12, 16⟩, ⟨JUNK_SIG, 36, 92⟩], ⟨DATA_SIG, 136, 4⟩, rfl, rfl, by decide⟩

/-- C1 (amended): `validate_prepared_for_append` returns Ok iff the file is
readable, the leading run of filler chunks (`JUNK`/`FLLR`) at the very
beginning of the chunk list cumulatively reserves at least 92 bytes, and the
first `data` chunk is the file's final chunk; a readable file with
insufficient reservation fails with `InsufficientDS64Reservation`, a
readable file with sufficient reservation whose `data` is not final fails
with `DataChunkNotPreparedForAppend`, and an unreadable file propagates its
readability error. -/
theorem c1_prepared_for_append_amended (chunks : List Chunk) :
    (validatePreparedForAppend chunks = .ok () ↔
      validateReadable chunks = .ok () ∧
        92 ≤ fillerReservation (chunks.takeWhile isFiller) ∧
        DataIsFinalChunk chunks) ∧
    (validateReadable chunks = .ok () →
      fillerReservation (chunks.takeWhile isFiller) < 92 →
      validatePreparedForAppend chunks =
        .error (.insufficientDS64Reservation 92
          (fillerReservation (chunks.takeWhile isFiller)))) ∧
    (validateReadable chunks = .ok () →
      92 ≤ fillerReservation (chunks.takeWhile isFiller) →
      ¬ DataIsFinalChunk chunks →
      validatePreparedForAppend chunks = .error .dataChunkNotPreparedForAppend) ∧
    (∀ e, validateReadable chunks = .error e →
      validatePreparedForAppend chunks = .error e) := by
  obtain ⟨herr, hins, hok, hlast⟩ := validatePreparedForAppend_cases chunks
  exact ⟨validatePreparedForAppend_ok_iff chunks, hins, hlast, herr⟩

/-- C1 witness: two leading fillers `JUNK(50)` and `FLLR(34)` reserve
50 + (34 + 8) = 92 bytes, so a readable container with `data` last passes. -/
theorem c1_witness :
    validatePreparedForAppend
      [⟨JUNK_SIG, 20, 50⟩, ⟨FLLR_SIG, 78, 34⟩, ⟨FMT__SIG, 120, 16⟩, ⟨DATA_SIG, 144, 8⟩]
      = .ok () :=
  (c1_prepared_for_append_amended
    [⟨JUNK_SIG, 20, 50⟩, ⟨FLLR_SIG, 78, 34⟩, ⟨FMT__SIG, 120, 16⟩, ⟨DATA_SIG, 144, 8⟩]).1.mpr
    ⟨by decide, by decide,
      ⟨[⟨JUNK_SIG, 20, 50⟩, ⟨FLLR_SIG, 78, 34⟩, ⟨FMT__SIG, 120, 16⟩], ⟨DATA_SIG, 144, 8⟩,
        rfl, rfl, by decide⟩⟩

/-- C2 counterexample: the claim quantifies over every chunk list whose
leading fillers are a single 91-byte `JUNK` with `data` last; the list
`[JUNK(91), data]` is such a list, but lacking a `fmt ` chunk the call fails
with `ChunkMissing fmt `, not with `InsufficientDS64Reservation 92 91`. -/
theorem c2_counterexample :
    ([⟨JUNK_SIG, 20, 91⟩, ⟨DATA_SIG, 120, 4⟩] : List Chunk).takeWhile isFiller
      = [⟨JUNK_SIG, 20, 91⟩] ∧
    DataIsFinalChunk [⟨JUNK_SIG, 20, 91⟩, ⟨DATA_SIG, 120, 4⟩] ∧
    validatePreparedForAppend [⟨JUNK_SIG, 20, 91⟩, ⟨DATA_SIG, 120, 4⟩]
      = .error (.chunkMissing FMT__SIG) ∧
    Error.chunkMissing FMT__SIG ≠ .insufficientDS64Reservation 92 91 := by
  refine ⟨by decide, ?_, by decide, by decide⟩
  exact ⟨[⟨JUNK_SIG, 20, 91⟩], ⟨DATA_SIG, 120, 4⟩, rfl, rfl, by decide⟩

/-- C2 (amended): restricted to readable chunk lists: a single leading
`JUNK` filler of payload length 91 with `data` final fails with expected 92
and actual 91; a single leading filler of payload length 92 (with `data`
final) passes; in general the reservation is the sum of each leading
filler's payload length plus 8 extra bytes for every filler after the first,
and a readable list fails with `InsufficientDS64Reservation` exactly when
that sum is strictly below 92. -/
theorem c2_reservation_threshold (chunks : List Chunk) :
    (fillerReservation (chunks.takeWhile isFiller) =
      match chunks.takeWhile isFiller with
      | [] => 0
      | c :: rest => c.length + (rest.map (fun x => x.length + 8)).sum) ∧
    (validateReadable chunks = .ok () → ∀ j : Chunk, chunks.takeWhile isFiller = [j] →
      j.signature = JUNK_SIG → j.length = 91 → DataIsFinalChunk chunks →
      validatePreparedForAppend chunks = .error (.insufficientDS64Reservation 92 91)) ∧
    (validateReadable chunks = .ok () → ∀ j : Chunk, chunks.takeWhile isFiller = [j] →
      isFiller j = true → j.length = 92 → DataIsFinalChunk chunks →
      validatePreparedForAppend chunks = .ok ()) ∧
    (validateReadable chunks = .ok () →
      ((∃ a, validatePreparedForAppend chunks
          = .error (.insufficientDS64Reservation 92 a)) ↔
        fillerReservation (chunks.takeWhile isFiller) < 92)) := by
  obtain ⟨herr, hins, hok, hlast⟩ := validatePreparedForAppend_cases chunks
  refine ⟨?_, ?_, ?_, ?_⟩
  · cases h : chunks.takeWhile isFiller with
    | nil => rw [fillerReservation_nil]
    | cons c rest => rw [fillerReservation_cons]
  · intro hr j hTW hsig hlen hfinal
    have hres : fillerReservation (chunks.takeWhile isFiller) = 91 := by
      rw [hTW, fillerReservation_cons]
      simp [hlen]
    have h := hins hr (by rw [hres]; omega)
    rw [hres] at h
    exact h
  · intro hr j hTW hfil hlen hfinal
    apply hok hr ?_ hfinal
    rw [hTW, fillerReservation_cons]
    simp [hlen]
  · intro hr
    constructor
    · rintro ⟨a, ha⟩
      by_contra hge
      push_neg at hge
      by_cases hfinal : DataIsFinalChunk chunks
      · rw [hok hr hge hfinal] at ha
        exact absurd ha (by simp)
      · rw [hlast hr hge hfinal] at ha
        exact absurd ha (by simp)
    · intro hlt
      exact ⟨_, hins hr hlt⟩

/-- C2 witness: a readable container `[JUNK(91), fmt , data]` fails with
expected 92, actual 91. -/
theorem c2_witness :
    validatePreparedForAppend [⟨JUNK_SIG, 20, 91⟩, ⟨FMT__SIG, 120, 16⟩, ⟨DATA_SIG, 144, 8⟩]
      = .error (.insufficientDS64Reservation 92 91) :=
  (c2_reservation_threshold
    [⟨JUNK_SIG, 20, 91⟩, ⟨FMT__SIG, 120, 16⟩, ⟨DATA_SIG, 144, 8⟩]).2.1 (by decide)
    ⟨JUNK_SIG, 20, 91⟩ (by decide) rfl rfl
    ⟨[⟨JUNK_SIG, 20, 91⟩, ⟨FMT__SIG, 120, 16⟩], ⟨DATA_SIG, 144, 8⟩, rfl, rfl, by decide⟩

/-- C10: the reservation check precedes the data-is-last check: for every
readable chunk list whose filler reservation is below 92 bytes and where the
first `data` chunk is absent or not the final chunk, the returned error is
`InsufficientDS64Reservation`, never `DataChunkNotPreparedForAppend`. -/
theorem c10_reservation_checked_first (chunks : List Chunk)
    (hr : validateReadable chunks = .ok ())
    (hlt : fillerReservation (chunks.takeWhile isFiller) < 92)
    (hnl : ¬ DataIsFinalChunk chunks) :
    validatePreparedForAppend chunks =
      .error (.insufficientDS64Reservation 92
        (fillerReservation (chunks.takeWhile isFiller))) ∧
    validatePreparedForAppend chunks ≠ .error .dataChunkNotPreparedForAppend := by
  have h := (validatePreparedForAppend_cases chunks).2.1 hr hlt
  refine ⟨h, ?_⟩
  rw [h]
  simp

/-- C10 witness: a readable container `[fmt , data, JUNK]` (reservation 0,
`data` not last) fails with `InsufficientDS64Reservation 92 0`. -/
theorem c10_witness :
    validatePreparedForAppend [⟨FMT__SIG, 12, 16⟩, ⟨DATA_SIG, 36, 4⟩, ⟨JUNK_SIG, 48, 4⟩]
      = .error (.insufficientDS64Reservation 92 0) := by
  have hnl : ¬ DataIsFinalChunk [⟨FMT__SIG, 12, 16⟩, ⟨DATA_SIG, 36, 4⟩, ⟨JUNK_SIG, 48, 4⟩] := by
    intro hf
    have h2 := (dataIsFinalChunk_iff _).mpr hf
    revert h2
    decide
  have h := c10_reservation_checked_first
    [⟨FMT__SIG, 12, 16⟩, ⟨DATA_SIG, 36, 4⟩, ⟨JUNK_SIG, 48, 4⟩] (by decide) (by decide) hnl
  exact h.1
